import Mathlib

/-!
Verification development for the Inviwo serialization core and the
ListProperty container, shallowly embedded from
`src/core/io/serialization/serializer.cpp` and
`include/inviwo/core/properties/listproperty.h`.
-/

namespace Inviwo

/-! ### ListProperty (listproperty.h)

The dynamic list-of-properties container.  An element (a cloned
sub-property) is modelled by its identifier, display name and the payload
value it was cloned from; an option of the selection dropdown by its id and
name.  The state gathers the data members of `ListProperty<T>`. -/

/-- The prefab object cloned for each new list element. -/
structure Prefab where
  value : String
deriving DecidableEq

/-- One element of the list: a cloned property. -/
structure PropElem where
  identifier : String
  displayName : String
  value : String
deriving DecidableEq

/-- One option of the elementSelection dropdown. -/
structure OptionItem where
  id : String
  name : String
deriving DecidableEq

/-- Data members of `ListProperty<T>`. -/
structure LPState where
  identifier : String
  displayName : String
  elementName : String
  prefab : Option Prefab
  numElements : Nat
  maxNumElements : Nat
  options : List OptionItem
  selectedIndex : Nat
  elements : List PropElem
deriving DecidableEq

/-- Errors an operation on the embedded ListProperty can run into:
dereferencing a null prefab pointer, or an out-of-range access via
`std::vector::at`. -/
inductive LPError where
  | nullDeref
  | outOfRange
deriving DecidableEq

/-- The `ListProperty` constructor: stores the arguments, starts with zero
elements, no options and an empty element container. -/
def mkListProperty (identifier displayName elementName : String)
    (prefab : Option Prefab) (maxNumberOfElements : Nat) : LPState :=
  { identifier := identifier
    displayName := displayName
    elementName := elementName
    prefab := prefab
    numElements := 0
    maxNumElements := maxNumberOfElements
    options := []
    selectedIndex := 0
    elements := [] }

/-- The constructor with its default arguments supplied:
`elementName = "Element"`, `prefab = nullptr`, `maxNumberOfElements = 0`. -/
def mkListPropertyDefault (identifier displayName : String) : LPState :=
  mkListProperty identifier displayName "Element" none 0

/-- `ListProperty<T>::addElement`: if the list is not full (or unbounded),
increment the counter, add a dropdown option, clone the prefab and append
it with identifier `element_n` and display name `<elementName> n`.
Cloning dereferences the prefab pointer. -/
def addElement (s : LPState) : Except LPError LPState :=
  if s.numElements < s.maxNumElements ∨ s.maxNumElements = 0 then
    match s.prefab with
    | none => .error .nullDeref
    | some p =>
      let num := toString (s.numElements + 1)
      .ok { s with
        numElements := s.numElements + 1
        options := s.options ++ [⟨"elementOption_" ++ num, s.elementName ++ " " ++ num⟩]
        elements := s.elements ++
          [⟨"element_" ++ num, s.elementName ++ " " ++ num, p.value⟩] }
  else .ok s

/-- `CompositeProperty::removeProperty(identifier)`: removes the first
sub-property carrying the given identifier. -/
def removeFirstByIdent : List PropElem → String → List PropElem
  | [], _ => []
  | e :: es, ident => if e.identifier = ident then es else e :: removeFirstByIdent es ident

/-- The renumbering loop of `deleteElement`: walk the remaining elements
with a counter starting at `k` and rewrite identifier and display name. -/
def renumberFrom (name : String) (k : Nat) : List PropElem → List PropElem
  | [] => []
  | e :: es =>
    { e with identifier := "element_" ++ toString k,
             displayName := name ++ " " ++ toString k } :: renumberFrom name (k + 1) es

/-- The option-rebuilding loop of `deleteElement`: `n` fresh options
numbered from `k` upwards. -/
def optionsFrom (name : String) (k : Nat) : Nat → List OptionItem
  | 0 => []
  | n + 1 => ⟨"elementOption_" ++ toString k, name ++ " " ++ toString k⟩ ::
      optionsFrom name (k + 1) n

/-- `ListProperty<T>::deleteElement`: early-out on an empty list, look up
the selected element (`std::vector::at` raises on an out-of-range index),
remove it and its option, decrement the counter, renumber the remaining
elements consecutively from 1 and rebuild the option list. -/
def deleteElement (s : LPState) : Except LPError LPState :=
  if s.numElements ≤ 0 then .ok s
  else
    match s.elements.get? s.selectedIndex with
    | none => .error .outOfRange
    | some sel =>
      let afterDeletion := removeFirstByIdent s.elements sel.identifier
      .ok { s with
        numElements := s.numElements - 1
        elements := renumberFrom s.elementName 1 afterDeletion
        options := optionsFrom s.elementName 1 afterDeletion.length }

/-- The copy constructor `ListProperty(const ListProperty&)`: copies every
member and installs a clone of the prefab of the source, obtained by
dereferencing the prefab pointer of the source. -/
def copyCtor (rhs : LPState) : Except LPError LPState :=
  match rhs.prefab with
  | none => .error .nullDeref
  | some p => .ok { rhs with prefab := some p }

/-- `ListProperty<T>::clone`: `new ListProperty<T>(*this)`. -/
def cloneLP (rhs : LPState) : Except LPError LPState := copyCtor rhs

/-- The copy assignment operator: a self-assignment (`this == &that`) is a
no-op; otherwise every member is assigned from the source and the prefab
pointer of the source is dereferenced to clone it. -/
def assignFrom (target source : LPState) (sameObject : Bool) : Except LPError LPState :=
  if sameObject then .ok target
  else
    match source.prefab with
    | none => .error .nullDeref
    | some p => .ok { source with prefab := some p }

/-! ### Serializer document model (serializer.cpp)

The document backend (TinyXML in the original) is opaque: we model a
document as a flat list of nodes in creation order, a node referring to its
parent by index.  The index of a node is its identity for the whole pass;
`cursor` is the `rootElement_` pointer of `SerializeBase`, which the
`NodeSwitch` guard saves and restores around each nested serialize call. -/

/-- A scalar payload as handed to the document backend.  The Serializer
hands over full-width integers (`intText`, `uintText`) or strings; a
`charByte` payload is what a non-widening path would hand over for an
8-bit value and is never produced by the Serializer. -/
inductive PValue where
  | str : String → PValue
  | intText : Int → PValue
  | uintText : Nat → PValue
  | charByte : Int → PValue
deriving DecidableEq

/-- Node kinds of the document tree. -/
inductive NodeKind where
  | element
  | comment
deriving DecidableEq

/-- A document node: name, parent index, kind, ordered attributes and an
optional text payload. -/
structure Elem where
  name : String
  parent : Option Nat
  kind : NodeKind
  attrs : List (String × PValue)
  text : Option PValue
deriving DecidableEq

/-- A failure reported by the document backend (`TxException`). -/
structure TxError where
  msg : String
deriving DecidableEq

/-- The exception taxonomy visible at the Serializer boundary:
`serialization msg ctx` is `SerializationException(msg, ctx)`; `txNative`
would be a backend exception escaping untranslated. -/
inductive IvwError where
  | serialization : String → String → IvwError
  | txNative : TxError → IvwError
deriving DecidableEq

/-- Serializer state: the document (xml declaration flag plus node list in
creation order), the cursor (`rootElement_`), the deferred reference
attributes still to be stamped, and the reference table (identities in
order of id assignment, so the assigned id is the list index). -/
structure SState where
  xmlDecl : Bool
  elems : List Elem
  cursor : Nat
  pendingRefs : List (Nat × Nat)
  refTable : List Nat
deriving DecidableEq

/-- Modelled from the spec: `SerializeConstants::InviwoTreedata`, the
conventional root element name (the constants header is not part of the
excerpt). -/
def InviwoTreedata : String := "InviwoTreeData"

/-- Modelled from the spec: `SerializeConstants::VersionAttribute`. -/
def VersionAttribute : String := "version"

/-- Modelled from the spec: `SerializeConstants::InviwoVersion`, the
version string stamped on the root. -/
def InviwoVersion : String := "1.0"

/-- Modelled from the spec: `SerializeConstants::EditComment`, the
edit-warning comment text. -/
def EditComment : String := "Do not edit this file"

/-- Modelled from the spec: the attribute name used for a reference
marker written in place of a full subtree. -/
def ReferenceAttribute : String := "reference"

/-- Modelled from the spec: the attribute name stamped by the reference
table onto previously-written elements at finalization. -/
def IdentityAttribute : String := "id"

/-- The static context tag (`IvwContext`) attached by the Serializer when
translating backend failures. -/
def serializerContext : String := "Serializer"

/-- `TiXmlElement::SetAttribute`: replace the value of an existing
attribute, or append a new attribute at the end. -/
def setAttrList : List (String × PValue) → String → PValue → List (String × PValue)
  | [], key, v => [(key, v)]
  | kv :: rest, key, v =>
    if kv.1 = key then (key, v) :: rest
    else kv :: setAttrList rest key v

/-- Attribute lookup by name. -/
def getAttr : List (String × PValue) → String → Option PValue
  | [], _ => none
  | kv :: rest, key => if kv.1 = key then some kv.2 else getAttr rest key

/-- The root element as built by `Serializer::initialize`: named with the
conventional root name and carrying the version attribute. -/
def rootElem : Elem :=
  { name := InviwoTreedata, parent := none, kind := .element,
    attrs := [(VersionAttribute, .str InviwoVersion)], text := none }

/-- The edit-warning comment linked as the first child of the root. -/
def editCommentElem : Elem :=
  { name := "", parent := some 0, kind := .comment, attrs := [],
    text := some (.str EditComment) }

/-- The serializer state right after `Serializer::initialize`: xml
declaration linked, root element (index 0) with the version attribute,
edit comment as its first child, empty reference machinery, cursor at the
root. -/
def initState : SState :=
  { xmlDecl := true, elems := [rootElem, editCommentElem], cursor := 0,
    pendingRefs := [], refTable := [] }

/-- `Serializer::initialize` with its try/catch boundary: a backend
failure thrown while building the document (injected here as a parameter,
the backend being opaque) is re-thrown as
`SerializationException(e.what(), IvwContext)`. -/
def initializeSerializer (backendFailure : Option TxError) : Except IvwError SState :=
  match backendFailure with
  | some e => .error (.serialization e.msg serializerContext)
  | none => .ok initState

mutual

/-- Syntax of one serialize call made by an object against the Serializer.
`fail` is an object whose serialize method throws; `child key sub` is
`serialize(key, sObj)` where the serialize method of `sObj` performs the
calls `sub`; `prim key v asAttr` is a scalar overload; `refChild` is the
reference-aware overload (modelled from the spec, the template overloads
living outside the excerpt) for an object with the given identity. -/
inductive SerAct where
  | fail : SerAct
  | child : String → SerActs → SerAct
  | prim : String → PValue → Bool → SerAct
  | refChild : String → Nat → SerActs → SerAct

/-- A sequence of serialize calls. -/
inductive SerActs where
  | nil : SerActs
  | cons : SerAct → SerActs → SerActs

end

mutual

/-- Interpreter for one serialize call, following
`Serializer::serialize(const std::string&, const Serializable&)`: link a
new element under the cursor, switch the cursor to it (`NodeSwitch`),
run the serialize method of the object, and restore the cursor on scope
exit — also when the nested call failed.  The scalar overload writes an
attribute of the cursor element or a text child, per `asAttribute`.  The
reference-aware overload first consults the reference table: a known
identity yields only a stub with a reference attribute and no recursion;
a new identity is assigned the next id, its element location is recorded
for deferred stamping, and the full walk proceeds. -/
def runAct : SerAct → SState → SState × Bool
  | .fail, s => (s, false)
  | .child key sub, s =>
    let newId := s.elems.length
    let s1 : SState := { s with
      elems := s.elems ++
        [{ name := key, parent := some s.cursor, kind := .element, attrs := [], text := none }],
      cursor := newId }
    let r := runActs sub s1
    ({ r.1 with cursor := s.cursor }, r.2)
  | .prim key v asAttr, s =>
    if asAttr then
      match s.elems.get? s.cursor with
      | some e =>
        ({ s with elems := s.elems.set s.cursor { e with attrs := setAttrList e.attrs key v } },
         true)
      | none => (s, true)
    else
      ({ s with elems := s.elems ++
          [{ name := key, parent := some s.cursor, kind := .element, attrs := [], text := some v }] },
       true)
  | .refChild key ident sub, s =>
    if ident ∈ s.refTable then
      ({ s with elems := s.elems ++
          [{ name := key, parent := some s.cursor, kind := .element,
             attrs := [(ReferenceAttribute, .uintText (s.refTable.indexOf ident))],
             text := none }] },
       true)
    else
      let newId := s.elems.length
      let refId := s.refTable.length
      let s1 : SState := { s with
        elems := s.elems ++
          [{ name := key, parent := some s.cursor, kind := .element, attrs := [], text := none }],
        refTable := s.refTable ++ [ident],
        pendingRefs := s.pendingRefs ++ [(newId, refId)],
        cursor := newId }
      let r := runActs sub s1
      ({ r.1 with cursor := s.cursor }, r.2)

/-- Interpreter for a sequence of serialize calls; an exception aborts the
remainder of the sequence and propagates. -/
def runActs : SerActs → SState → SState × Bool
  | .nil, s => (s, true)
  | .cons a rest, s =>
    let r := runAct a s
    if r.2 then runActs rest r.1 else r

end

/-- Modelled from the spec: the full-width signed integer scalar overload
(the template overloads live in serializer.h, outside the excerpt): the
value is handed to the backend as a full-width signed integer payload. -/
def serializeInt (key : String) (data : Int) (asAttribute : Bool) : SerAct :=
  .prim key (.intText data) asAttribute

/-- Modelled from the spec: the full-width unsigned integer scalar
overload. -/
def serializeUInt (key : String) (data : Nat) (asAttribute : Bool) : SerAct :=
  .prim key (.uintText data) asAttribute

/-- `Serializer::serialize(key, const signed char&, asAttribute)`:
delegates to the signed full-width overload via `static_cast<int>`,
which preserves the value of the 8-bit quantity. -/
def serializeSignedChar (key : String) (data : Int) (asAttribute : Bool) : SerAct :=
  serializeInt key data asAttribute

/-- `Serializer::serialize(key, const char&, asAttribute)`: delegates to
the signed full-width overload via `static_cast<int>`. -/
def serializeChar (key : String) (data : Int) (asAttribute : Bool) : SerAct :=
  serializeInt key data asAttribute

/-- `Serializer::serialize(key, const unsigned char&, asAttribute)`:
delegates to the unsigned full-width overload via
`static_cast<unsigned int>`. -/
def serializeUnsignedChar (key : String) (data : Nat) (asAttribute : Bool) : SerAct :=
  serializeUInt key data asAttribute

/-- The payload a scalar serialize call hands to the backend. -/
def primPayload : SerAct → Option PValue
  | .prim _ v _ => some v
  | _ => none

/-- A file sink for `doc_.SaveFile(getFileName())`; `fails` is the write
failure the backend reports, if any. -/
structure FileSink where
  path : String
  fails : Option TxError
deriving DecidableEq

/-- A stream sink for `stream << doc_`. -/
structure StreamSink where
  fails : Option TxError
deriving DecidableEq

/-- The document content flushed to a sink. -/
structure DocOutput where
  decl : Bool
  nodes : List Elem
deriving DecidableEq

/-- Rendering the in-memory document to sink content. -/
def render (s : SState) : DocOutput := ⟨s.xmlDecl, s.elems⟩

/-- Stamp one deferred reference attribute onto its element. -/
def stampOne (es : List Elem) (pr : Nat × Nat) : List Elem :=
  match es.get? pr.1 with
  | some e => es.set pr.1 { e with attrs := setAttrList e.attrs IdentityAttribute (.uintText pr.2) }
  | none => es

/-- Modelled from the spec: `refDataContainer_.setReferenceAttributes()`
(the reference data container lives outside the excerpt) stamps every
deferred reference/identity attribute onto the previously-written
elements. -/
def setReferenceAttributes (s : SState) : SState :=
  { s with elems := s.pendingRefs.foldl stampOne s.elems }

/-- The backend save to a file path. -/
def saveFile (s : SState) (sink : FileSink) : Except TxError DocOutput :=
  match sink.fails with
  | some e => .error e
  | none => .ok (render s)

/-- The backend save to a stream. -/
def saveStream (s : SState) (sink : StreamSink) : Except TxError DocOutput :=
  match sink.fails with
  | some e => .error e
  | none => .ok (render s)

/-- `Serializer::writeFile()`: stamp the deferred reference attributes,
then save the document to the file sink; a backend failure is re-thrown
as `SerializationException(e.what(), IvwContext)`.  The first component
is the in-memory state after the call. -/
def writeFileToPath (s : SState) (sink : FileSink) : SState × Except IvwError DocOutput :=
  let s1 := setReferenceAttributes s
  match saveFile s1 sink with
  | .ok out => (s1, .ok out)
  | .error e => (s1, .error (.serialization e.msg serializerContext))

/-- `Serializer::writeFile(std::ostream&)`: the same finalize-then-flush
sequence against a stream sink. -/
def writeFileToStream (s : SState) (sink : StreamSink) : SState × Except IvwError DocOutput :=
  let s1 := setReferenceAttributes s
  match saveStream s1 sink with
  | .ok out => (s1, .ok out)
  | .error e => (s1, .error (.serialization e.msg serializerContext))

/-- The parent recorded for the node at index `i`. -/
def parentAt (es : List Elem) (i : Nat) : Option (Option Nat) :=
  (es.get? i).map Elem.parent

/-- The shape of the node at index `i`: everything except its attributes. -/
def shapeAt (es : List Elem) (i : Nat) : Option (String × Option Nat × NodeKind × Option PValue) :=
  (es.get? i).map (fun e => (e.name, e.parent, e.kind, e.text))

/-- The children of node `p`, in document order. -/
def childIds (es : List Elem) (p : Nat) : List Nat :=
  (List.range es.length).filter (fun i => decide (parentAt es i = some (some p)))

/-- A serialize call that, issued while the cursor is at the root, does
not overwrite the version attribute of the root: only a scalar attribute
write carrying the version attribute name does.  Nested calls are not
constrained — they run with the cursor at a freshly created node, never
at the root. -/
def avoidsVersionAttrAtRoot : SerAct → Bool
  | SerAct.prim key _ asAttr => !(asAttr && key == VersionAttribute)
  | _ => true

/-- Every top-level call of a sequence avoids writing the version
attribute at the root. -/
def allAvoidVersionAttrAtRoot : SerActs → Bool
  | SerActs.nil => true
  | SerActs.cons a rest => avoidsVersionAttrAtRoot a && allAvoidVersionAttrAtRoot rest

/-- The version attribute currently carried by the root element. -/
def rootVersionAttr (s : SState) : Option PValue :=
  match s.elems.get? 0 with
  | some e => getAttr e.attrs VersionAttribute
  | none => none

/-- The number of root (parentless) nodes of a document. -/
def rootCountL (es : List Elem) : Nat :=
  (List.range es.length).countP (fun i => decide (parentAt es i = some none))

/-- The attribute rewriting a document node at index `j` undergoes when
the deferred reference list `L` is stamped. -/
def stampAttrs (L : List (Nat × Nat)) (j : Nat)
    (as : List (String × PValue)) : List (String × PValue) :=
  L.foldl (fun as pr =>
    if pr.1 = j then setAttrList as IdentityAttribute (.uintText pr.2) else as) as

/-- The last deferred reference id recorded for node `j`, if any. -/
def lastStamp : List (Nat × Nat) → Nat → Option Nat
  | [], _ => none
  | pr :: L, j =>
    match lastStamp L j with
    | some r => some r
    | none => if pr.1 = j then some pr.2 else none

/-- Frame conditions one serialize call establishes between the state it
starts from and the state it leaves behind: cursor and declaration are
restored, the document only grows, existing nodes keep their shape
(attributes aside), every new node hangs under the starting cursor or
under another new node, and a duplicate-free reference table stays
duplicate-free. -/
def goodTrans (s t : SState) : Prop :=
  t.cursor = s.cursor ∧
  t.xmlDecl = s.xmlDecl ∧
  s.elems.length ≤ t.elems.length ∧
  (∀ i, i < s.elems.length → shapeAt t.elems i = shapeAt s.elems i) ∧
  (∀ i, s.elems.length ≤ i → i < t.elems.length →
    ∃ p, parentAt t.elems i = some (some p) ∧ (p = s.cursor ∨ s.elems.length ≤ p)) ∧
  (s.refTable.Nodup → t.refTable.Nodup)

/-! ### Lemmas about the ListProperty loops -/

theorem length_renumberFrom (name : String) : ∀ (k : Nat) (es : List PropElem),
    (renumberFrom name k es).length = es.length
  | _, [] => rfl
  | k, _ :: es => by simp [renumberFrom, length_renumberFrom name (k + 1) es]

theorem renumberFrom_get? (name : String) : ∀ (es : List PropElem) (k i : Nat),
    (renumberFrom name k es).get? i =
      (es.get? i).map (fun e =>
        { e with identifier := "element_" ++ toString (k + i),
                 displayName := name ++ " " ++ toString (k + i) })
  | [], k, i => by simp [renumberFrom]
  | e :: es, k, 0 => by simp [renumberFrom]
  | e :: es, k, i + 1 => by
    have ih := renumberFrom_get? name es (k + 1) i
    rw [show k + 1 + i = k + (i + 1) from by omega] at ih
    simpa [renumberFrom] using ih

theorem length_optionsFrom (name : String) : ∀ (k n : Nat),
    (optionsFrom name k n).length = n
  | _, 0 => rfl
  | k, n + 1 => by simp [optionsFrom, length_optionsFrom name (k + 1) n]

theorem optionsFrom_get? (name : String) : ∀ (n k i : Nat), i < n →
    (optionsFrom name k n).get? i =
      some ⟨"elementOption_" ++ toString (k + i), name ++ " " ++ toString (k + i)⟩
  | 0, _, i, h => absurd h (Nat.not_lt_zero i)
  | n + 1, k, 0, _ => by simp [optionsFrom]
  | n + 1, k, i + 1, h => by
    have ih := optionsFrom_get? name n (k + 1) i (by omega)
    rw [show k + 1 + i = k + (i + 1) from by omega] at ih
    simpa [optionsFrom] using ih

theorem length_removeFirstByIdent : ∀ (es : List PropElem) (ident : String),
    ident ∈ es.map PropElem.identifier →
    (removeFirstByIdent es ident).length + 1 = es.length
  | [], ident, h => by simp at h
  | e :: es, ident, h => by
    by_cases he : e.identifier = ident
    · simp [removeFirstByIdent, he]
    · have hmem : ident ∈ es.map PropElem.identifier := by
        rcases List.mem_map.1 h with ⟨x, hx, hxi⟩
        rcases List.mem_cons.1 hx with rfl | hx2
        · exact absurd hxi he
        · exact List.mem_map.2 ⟨x, hx2, hxi⟩
      have ih := length_removeFirstByIdent es ident hmem
      simp [removeFirstByIdent, he]
      omega

/-- C8: `addElement` is a complete no-op when the list is bounded and
full; otherwise it increments the counter by exactly one and appends
exactly one element cloned from the prefab (and one dropdown option); and
the bound `numElements_ <= maxNumElements_` is preserved by every
`addElement` and every `deleteElement` whenever the bound is non-zero. -/
theorem addElement_bounded :
    (∀ s : LPState, s.maxNumElements ≠ 0 → s.maxNumElements ≤ s.numElements →
      addElement s = .ok s) ∧
    (∀ (s : LPState) (p : Prefab), s.prefab = some p →
      (s.numElements < s.maxNumElements ∨ s.maxNumElements = 0) →
      addElement s = .ok { s with
        numElements := s.numElements + 1
        options := s.options ++ [⟨"elementOption_" ++ toString (s.numElements + 1),
          s.elementName ++ " " ++ toString (s.numElements + 1)⟩]
        elements := s.elements ++ [⟨"element_" ++ toString (s.numElements + 1),
          s.elementName ++ " " ++ toString (s.numElements + 1), p.value⟩] }) ∧
    (∀ s s' : LPState, s.maxNumElements ≠ 0 → s.numElements ≤ s.maxNumElements →
      addElement s = .ok s' → s'.numElements ≤ s'.maxNumElements) ∧
    (∀ s s' : LPState, s.maxNumElements ≠ 0 → s.numElements ≤ s.maxNumElements →
      deleteElement s = .ok s' → s'.numElements ≤ s'.maxNumElements) := by
  refine ⟨?_, ?_, ?_, ?_⟩
  · intro s h0 hfull
    have hng : ¬ (s.numElements < s.maxNumElements ∨ s.maxNumElements = 0) := by omega
    rw [addElement, if_neg hng]
  · intro s p hp hguard
    rw [addElement, if_pos hguard, hp]
  · intro s s' h0 hle hadd
    rw [addElement] at hadd
    split at hadd
    · rename_i hguard
      cases hp : s.prefab with
      | none => rw [hp] at hadd; exact absurd hadd (by simp)
      | some p =>
        rw [hp] at hadd
        have hs' := Except.ok.inj hadd
        subst hs'
        dsimp only
        omega
    · have hs' := Except.ok.inj hadd
      subst hs'
      omega
  · intro s s' h0 hle hdel
    rw [deleteElement] at hdel
    split at hdel
    · have hs' := Except.ok.inj hdel
      subst hs'
      omega
    · cases hg : s.elements.get? s.selectedIndex with
      | none => rw [hg] at hdel; exact absurd hdel (by simp)
      | some sel =>
        rw [hg] at hdel
        have hs' := Except.ok.inj hdel
        subst hs'
        dsimp only
        omega

/-- Witness for C8 at concrete states: a full bounded list is untouched,
and the bound survives an `addElement` on a list with one free slot. -/
theorem addElement_bounded_witness :
    addElement ⟨"l", "L", "E", none, 2, 2, [], 0, []⟩ =
      .ok ⟨"l", "L", "E", none, 2, 2, [], 0, []⟩ ∧
    (⟨"l", "L", "E", some ⟨"p"⟩, 2, 2,
        [⟨"elementOption_1", "E 1"⟩, ⟨"elementOption_2", "E 2"⟩], 0,
        [⟨"element_1", "E 1", "p"⟩, ⟨"element_2", "E 2", "p"⟩]⟩ : LPState).numElements ≤
      (⟨"l", "L", "E", some ⟨"p"⟩, 2, 2,
        [⟨"elementOption_1", "E 1"⟩, ⟨"elementOption_2", "E 2"⟩], 0,
        [⟨"element_1", "E 1", "p"⟩, ⟨"element_2", "E 2", "p"⟩]⟩ : LPState).maxNumElements := by
  constructor
  · exact addElement_bounded.1 ⟨"l", "L", "E", none, 2, 2, [], 0, []⟩ (by decide) (by decide)
  · exact addElement_bounded.2.2.1
      ⟨"l", "L", "E", some ⟨"p"⟩, 1, 2, [⟨"elementOption_1", "E 1"⟩], 0, [⟨"element_1", "E 1", "p"⟩]⟩
      ⟨"l", "L", "E", some ⟨"p"⟩, 2, 2,
        [⟨"elementOption_1", "E 1"⟩, ⟨"elementOption_2", "E 2"⟩], 0,
        [⟨"element_1", "E 1", "p"⟩, ⟨"element_2", "E 2", "p"⟩]⟩
      (by decide) (by decide) (by rfl)

/-- C9: the constructor defaults the prefab to null, and the copy
constructor, copy assignment (to a distinct object) and `clone` all
dereference the prefab pointer of the source: they fail by null
dereference exactly when the source was built without a prefab. -/
theorem copy_requires_prefab :
    (∀ identifier displayName : String,
      (mkListPropertyDefault identifier displayName).prefab = none) ∧
    (∀ s : LPState, s.prefab = none →
      copyCtor s = .error .nullDeref ∧ cloneLP s = .error .nullDeref ∧
      ∀ t : LPState, assignFrom t s false = .error .nullDeref) ∧
    (∀ (s : LPState) (p : Prefab), s.prefab = some p →
      copyCtor s = .ok { s with prefab := some p } ∧
      cloneLP s = .ok { s with prefab := some p } ∧
      ∀ t : LPState, assignFrom t s false = .ok { s with prefab := some p }) := by
  refine ⟨fun _ _ => rfl, ?_, ?_⟩
  · intro s hp
    refine ⟨?_, ?_, fun t => ?_⟩ <;> simp [copyCtor, cloneLP, assignFrom, hp]
  · intro s p hp
    refine ⟨?_, ?_, fun t => ?_⟩ <;> simp [copyCtor, cloneLP, assignFrom, hp]

/-- Witness for C9: the default-constructed list property has a null
prefab and copying it reaches the null dereference. -/
theorem copy_requires_prefab_witness :
    (mkListPropertyDefault "list" "List").prefab = none ∧
    copyCtor (mkListPropertyDefault "list" "List") = .error .nullDeref := by
  refine ⟨copy_requires_prefab.1 "list" "List", ?_⟩
  exact (copy_requires_prefab.2.1 (mkListPropertyDefault "list" "List") (by decide)).1

/-- C10: after a successful `deleteElement` on a consistent non-empty
list, the remaining elements are renumbered consecutively from 1
(identifier `element_i`, display name `<elementName> i`), the option list
holds exactly one matching option per element, and counter, element
container and option list sizes agree. -/
theorem deleteElement_renumbers (s s' : LPState)
    (hnum : s.numElements = s.elements.length)
    (hsel : s.selectedIndex < s.elements.length)
    (hdel : deleteElement s = .ok s') :
    s'.numElements = s.numElements - 1 ∧
    s'.elements.length = s'.numElements ∧
    s'.options.length = s'.numElements ∧
    (∀ i, i < s'.elements.length → ∃ e, s'.elements.get? i = some e ∧
      e.identifier = "element_" ++ toString (i + 1) ∧
      e.displayName = s.elementName ++ " " ++ toString (i + 1)) ∧
    (∀ i, i < s'.options.length → s'.options.get? i =
      some ⟨"elementOption_" ++ toString (i + 1), s.elementName ++ " " ++ toString (i + 1)⟩) := by
  have hpos : ¬ s.numElements ≤ 0 := by omega
  rw [deleteElement, if_neg hpos] at hdel
  cases hg : s.elements.get? s.selectedIndex with
  | none => rw [hg] at hdel; exact absurd hdel (by simp)
  | some sel =>
    rw [hg] at hdel
    have hs' := Except.ok.inj hdel
    subst hs'
    have hmem : sel.identifier ∈ s.elements.map PropElem.identifier :=
      List.mem_map_of_mem PropElem.identifier (List.get?_mem hg)
    have hlen := length_removeFirstByIdent s.elements sel.identifier hmem
    set after := removeFirstByIdent s.elements sel.identifier with hafter
    dsimp only
    refine ⟨rfl, ?_, ?_, ?_, ?_⟩
    · rw [length_renumberFrom]; omega
    · rw [length_optionsFrom]; omega
    · intro i hi
      rw [length_renumberFrom] at hi
      rcases hb : after.get? i with _ | e
      · rw [List.get?_eq_none] at hb; omega
      · refine ⟨{ e with
                  identifier := "element_" ++ toString (1 + i)
                  displayName := s.elementName ++ " " ++ toString (1 + i) }, ?_, ?_, ?_⟩
        · rw [renumberFrom_get? s.elementName after 1 i, hb, Option.map_some']
        · simp [Nat.add_comm 1 i]
        · simp [Nat.add_comm 1 i]
    · intro i hi
      rw [length_optionsFrom] at hi
      rw [optionsFrom_get? s.elementName after.length 1 i hi, Nat.add_comm 1 i]

/-- Witness for C10: deleting the selected first element of a two-element
list renumbers the remaining one to `element_1`. -/
theorem deleteElement_renumbers_witness :
    deleteElement ⟨"l", "L", "E", none, 2, 0,
        [⟨"elementOption_1", "E 1"⟩, ⟨"elementOption_2", "E 2"⟩], 0,
        [⟨"element_1", "E 1", "a"⟩, ⟨"element_2", "E 2", "b"⟩]⟩ =
      .ok ⟨"l", "L", "E", none, 1, 0, [⟨"elementOption_1", "E 1"⟩], 0,
        [⟨"element_1", "E 1", "b"⟩]⟩ ∧
    (∃ e, ([⟨"element_1", "E 1", "b"⟩] : List PropElem).get? 0 = some e ∧
      e.identifier = "element_" ++ toString (0 + 1) ∧
      e.displayName = "E" ++ " " ++ toString (0 + 1)) := by
  constructor
  · rfl
  · exact (deleteElement_renumbers
      ⟨"l", "L", "E", none, 2, 0,
        [⟨"elementOption_1", "E 1"⟩, ⟨"elementOption_2", "E 2"⟩], 0,
        [⟨"element_1", "E 1", "a"⟩, ⟨"element_2", "E 2", "b"⟩]⟩
      ⟨"l", "L", "E", none, 1, 0, [⟨"elementOption_1", "E 1"⟩], 0,
        [⟨"element_1", "E 1", "b"⟩]⟩
      (by decide) (by decide) (by rfl)).2.2.2.1 0 (by decide)

/-! ### Attribute list lemmas -/

theorem getAttr_setAttrList_ne : ∀ (as : List (String × PValue)) (k k' : String) (v : PValue),
    k ≠ k' → getAttr (setAttrList as k v) k' = getAttr as k'
  | [], k, k', v, h => by simp [setAttrList, getAttr, h]
  | kv :: rest, k, k', v, h => by
    by_cases hk : kv.1 = k
    · simp [setAttrList, getAttr, hk, h, fun hh => h (hk.symm.trans hh)]
    · simp [setAttrList, getAttr, hk]
      by_cases hk' : kv.1 = k'
      · simp [hk']
      · simp [hk', getAttr_setAttrList_ne rest k k' v h]

theorem setAttrList_absorb : ∀ (as : List (String × PValue)) (k : String) (v w : PValue),
    setAttrList (setAttrList as k v) k w = setAttrList as k w
  | [], k, v, w => by simp [setAttrList]
  | kv :: rest, k, v, w => by
    by_cases hk : kv.1 = k
    · simp [setAttrList, hk]
    · simp [setAttrList, hk, setAttrList_absorb rest k v w]

/-! ### Shape and parent helpers -/

theorem parentAt_of_shapeAt (es es' : List Elem) (i : Nat)
    (h : shapeAt es' i = shapeAt es i) : parentAt es' i = parentAt es i := by
  unfold shapeAt at h
  unfold parentAt
  rcases h1 : es'.get? i with _ | e1 <;> rcases h2 : es.get? i with _ | e2 <;>
    simp_all [List.getElem?_eq_none]

theorem shapeAt_append_left (es ts : List Elem) (i : Nat) (h : i < es.length) :
    shapeAt (es ++ ts) i = shapeAt es i := by
  simp [shapeAt, List.get?_eq_getElem?, List.getElem?_append_left h]

theorem shapeAt_concat_self (es : List Elem) (e : Elem) :
    shapeAt (es ++ [e]) es.length = some (e.name, e.parent, e.kind, e.text) := by
  simp [shapeAt, List.get?_eq_getElem?, List.getElem?_concat_length]

theorem parentAt_concat_self (es : List Elem) (e : Elem) :
    parentAt (es ++ [e]) es.length = some e.parent := by
  simp [parentAt, List.get?_eq_getElem?, List.getElem?_concat_length]

/-! ### The frame property of the serialize interpreter -/

theorem goodTrans_refl (s : SState) : goodTrans s s :=
  ⟨rfl, rfl, Nat.le_refl _, fun _ _ => rfl, fun i h1 h2 => absurd h2 (by omega), id⟩

theorem goodTrans_comp (s t u : SState) (h1 : goodTrans s t) (h2 : goodTrans t u) :
    goodTrans s u := by
  obtain ⟨hc1, hd1, hl1, hs1, hn1, hr1⟩ := h1
  obtain ⟨hc2, hd2, hl2, hs2, hn2, hr2⟩ := h2
  refine ⟨hc2.trans hc1, hd2.trans hd1, hl1.trans hl2, ?_, ?_, fun h => hr2 (hr1 h)⟩
  · intro i hi
    exact (hs2 i (Nat.lt_of_lt_of_le hi hl1)).trans (hs1 i hi)
  · intro i hi1 hi2
    by_cases hit : i < t.elems.length
    · obtain ⟨p, hp, hpc⟩ := hn1 i hi1 hit
      refine ⟨p, ?_, hpc⟩
      rw [parentAt_of_shapeAt t.elems u.elems i (hs2 i hit)]
      exact hp
    · obtain ⟨p, hp, hpc⟩ := hn2 i (by omega) hi2
      refine ⟨p, hp, ?_⟩
      rcases hpc with hpc | hpc
      · exact Or.inl (hpc.trans hc1)
      · exact Or.inr (hl1.trans hpc)

theorem goodTrans_append_one (s : SState) (e : Elem) (he : e.parent = some s.cursor) :
    goodTrans s { s with elems := s.elems ++ [e] } := by
  refine ⟨rfl, rfl, by simp, ?_, ?_, id⟩
  · intro i hi
    exact shapeAt_append_left s.elems [e] i hi
  · intro i hi1 hi2
    have hie : i = s.elems.length := by simp at hi2; omega
    subst hie
    refine ⟨s.cursor, ?_, Or.inl rfl⟩
    rw [parentAt_concat_self, he]

theorem goodTrans_set_attrs (s : SState) (e : Elem) (key : String) (v : PValue)
    (hg : s.elems.get? s.cursor = some e) :
    goodTrans s { s with
      elems := s.elems.set s.cursor { e with attrs := setAttrList e.attrs key v } } := by
  have hg' : s.elems[s.cursor]? = some e := by rw [← List.get?_eq_getElem?]; exact hg
  refine ⟨rfl, rfl, by simp, ?_, ?_, id⟩
  · intro i hi
    by_cases hic : s.cursor = i
    · subst hic
      simp [shapeAt, List.get?_eq_getElem?, List.getElem?_set_self', hg']
    · simp [shapeAt, List.get?_eq_getElem?, List.getElem?_set_ne hic]
  · intro i hi1 hi2
    simp at hi2
    omega

theorem goodTrans_enter_exit (s : SState) (key : String) (rt : List Nat)
    (pend : List (Nat × Nat)) (t : SState)
    (hrt : s.refTable.Nodup → rt.Nodup)
    (h : goodTrans { s with
      elems := s.elems ++ [⟨key, some s.cursor, .element, [], none⟩],
      refTable := rt, pendingRefs := pend, cursor := s.elems.length } t) :
    goodTrans s { t with cursor := s.cursor } := by
  obtain ⟨hc, hd, hl, hs, hn, hr⟩ := h
  dsimp only at hc hd hl hs hn hr
  simp only [List.length_append, List.length_cons, List.length_nil] at hl hs hn
  refine ⟨rfl, hd, by dsimp only; omega, ?_, ?_, fun hh => hr (hrt hh)⟩
  · intro i hi
    dsimp only
    rw [hs i (by omega)]
    exact shapeAt_append_left s.elems _ i hi
  · intro i hi1 hi2
    dsimp only at hi1 hi2 ⊢
    rcases Nat.eq_or_lt_of_le hi1 with hie | hie
    · subst hie
      refine ⟨s.cursor, ?_, Or.inl rfl⟩
      have hsh := hs s.elems.length (by omega)
      rw [parentAt_of_shapeAt
        (s.elems ++ [⟨key, some s.cursor, .element, [], none⟩]) t.elems _ hsh]
      exact parentAt_concat_self s.elems _
    · obtain ⟨p, hp, hpc⟩ := hn i (by omega) hi2
      refine ⟨p, hp, Or.inr ?_⟩
      rcases hpc with hpc | hpc <;> omega

mutual

theorem runAct_good : ∀ (a : SerAct) (s : SState), goodTrans s (runAct a s).1
  | SerAct.fail, s => goodTrans_refl s
  | SerAct.child key sub, s => by
    have h := runActs_good sub { s with
      elems := s.elems ++ [⟨key, some s.cursor, .element, [], none⟩],
      cursor := s.elems.length }
    exact goodTrans_enter_exit s key s.refTable s.pendingRefs _ (fun hh => hh) h
  | SerAct.prim key v true, s => by
    rcases hg : s.elems[s.cursor]? with _ | e
    · have hre : runAct (SerAct.prim key v true) s = (s, true) := by
        simp [runAct, hg]
      rw [hre]
      exact goodTrans_refl s
    · have hre : runAct (SerAct.prim key v true) s = ({ s with elems := s.elems.set s.cursor { e with attrs := setAttrList e.attrs key v } }, true) := by
        simp [runAct, hg]
      rw [hre]
      exact goodTrans_set_attrs s e key v (by rw [List.get?_eq_getElem?]; exact hg)
  | SerAct.prim key v false, s => by
    have hre : runAct (SerAct.prim key v false) s =
        ({ s with elems := s.elems ++
          [⟨key, some s.cursor, NodeKind.element, [], some v⟩] }, true) := by
      simp [runAct]
    rw [hre]
    exact goodTrans_append_one s _ rfl
  | SerAct.refChild key ident sub, s => by
    by_cases hmem : ident ∈ s.refTable
    · have hre : runAct (SerAct.refChild key ident sub) s =
        ({ s with elems := s.elems ++
          [⟨key, some s.cursor, NodeKind.element,
            [(ReferenceAttribute, PValue.uintText (s.refTable.indexOf ident))], none⟩] },
         true) := by
        simp [runAct, hmem]
      rw [hre]
      exact goodTrans_append_one s _ rfl
    · have h := runActs_good sub { s with
        elems := s.elems ++ [⟨key, some s.cursor, .element, [], none⟩],
        refTable := s.refTable ++ [ident],
        pendingRefs := s.pendingRefs ++ [(s.elems.length, s.refTable.length)],
        cursor := s.elems.length }
      simp only [runAct]
      rw [if_neg hmem]
      exact goodTrans_enter_exit s key (s.refTable ++ [ident])
        (s.pendingRefs ++ [(s.elems.length, s.refTable.length)]) _
        (fun hh => by simp [List.nodup_append, hh, hmem]) h

theorem runActs_good : ∀ (l : SerActs) (s : SState), goodTrans s (runActs l s).1
  | SerActs.nil, s => goodTrans_refl s
  | SerActs.cons a rest, s => by
    have h1 := runAct_good a s
    cases hb : (runAct a s).2 with
    | false =>
      have hre : runActs (SerActs.cons a rest) s = runAct a s := by
        simp [runActs, hb]
      rw [hre]
      exact h1
    | true =>
      have h2 := runActs_good rest (runAct a s).1
      have hre : runActs (SerActs.cons a rest) s = runActs rest (runAct a s).1 := by
        simp [runActs, hb]
      rw [hre]
      exact goodTrans_comp _ _ _ h1 h2

end

/-! ### Children bookkeeping -/

theorem childIds_extend (es es' : List Elem) (c : Nat)
    (hlen : es.length < es'.length)
    (hold : ∀ i, i < es.length → parentAt es' i = parentAt es i)
    (hnew : parentAt es' es.length = some (some c))
    (hrest : ∀ i, es.length < i → i < es'.length → parentAt es' i ≠ some (some c)) :
    childIds es' c = childIds es c ++ [es.length] := by
  have hsplit : es'.length = (es.length + 1) + (es'.length - (es.length + 1)) := by omega
  unfold childIds
  rw [hsplit, List.range_add, List.filter_append, List.range_succ, List.filter_append]
  have h1 : (List.range es.length).filter (fun i => decide (parentAt es' i = some (some c))) =
      (List.range es.length).filter (fun i => decide (parentAt es i = some (some c))) := by
    apply List.filter_congr
    intro i hi
    rw [hold i (List.mem_range.1 hi)]
  have h2 : ([es.length] : List Nat).filter
      (fun i => decide (parentAt es' i = some (some c))) = [es.length] := by
    simp [hnew]
  have h3 : ((List.range (es'.length - (es.length + 1))).map (es.length + 1 + ·)).filter
      (fun i => decide (parentAt es' i = some (some c))) = [] := by
    apply List.filter_eq_nil_iff.2
    intro a ha
    rcases List.mem_map.1 ha with ⟨j, hj, rfl⟩
    have hjr := List.mem_range.1 hj
    have hne := hrest (es.length + 1 + j) (by omega) (by omega)
    simpa using hne
  rw [h1, h2, h3, List.append_nil]

/-- C1: modelled from the spec, the reference-aware overload first asks
the reference table: a known identity only appends a stub carrying the
reference attribute with the assigned id and returns without any
recursion (no matter what the serialize method of the object would do),
and along any run the reference table stays duplicate-free, so the full
subtree of a shared object is emitted at most once per pass (exactly at
its first encounter). -/
theorem serialize_ref_suppresses_duplicate :
    (∀ (key : String) (ident : Nat) (sub : SerActs) (s : SState), ident ∈ s.refTable →
      runAct (SerAct.refChild key ident sub) s = ({ s with elems := s.elems ++ [⟨key, some s.cursor, NodeKind.element, [(ReferenceAttribute, PValue.uintText (s.refTable.indexOf ident))], none⟩] }, true)) ∧
    (∀ (acts : SerActs) (s : SState), s.refTable.Nodup →
      (runActs acts s).1.refTable.Nodup) := by
  constructor
  · intro key ident sub s hmem
    simp [runAct, hmem]
  · intro acts s h
    exact (runActs_good acts s).2.2.2.2.2 h

/-- Witness for C1: an identity already in the table yields exactly the
reference stub, and serializing the same identity twice keeps the table
duplicate-free. -/
theorem serialize_ref_suppresses_duplicate_witness :
    runAct (SerAct.refChild "obj" 7 SerActs.nil)
        { xmlDecl := true, elems := [rootElem, editCommentElem], cursor := 0,
          pendingRefs := [(2, 0)], refTable := [7] } =
      ({ xmlDecl := true,
         elems := [rootElem, editCommentElem,
           ⟨"obj", some 0, NodeKind.element, [(ReferenceAttribute, PValue.uintText 0)], none⟩],
         cursor := 0, pendingRefs := [(2, 0)], refTable := [7] }, true) ∧
    (runActs (SerActs.cons (SerAct.refChild "a" 7 SerActs.nil)
        (SerActs.cons (SerAct.refChild "b" 7 SerActs.nil) SerActs.nil)) initState).1.refTable.Nodup := by
  constructor
  · exact serialize_ref_suppresses_duplicate.1 "obj" 7 SerActs.nil
      { xmlDecl := true, elems := [rootElem, editCommentElem], cursor := 0,
        pendingRefs := [(2, 0)], refTable := [7] } (by decide)
  · exact serialize_ref_suppresses_duplicate.2
      (SerActs.cons (SerAct.refChild "a" 7 SerActs.nil)
        (SerActs.cons (SerAct.refChild "b" 7 SerActs.nil) SerActs.nil)) initState (by decide)

/-- C2: `serialize(key, sObj)` creates exactly one new child element named
`key` under the cursor (the children of the old cursor are extended by
exactly the one new node), runs the nested calls one level deeper (every
other node created during the call hangs at or below the new node), and
restores the cursor on exit, also when the nested serialize fails. -/
theorem serialize_scoped_subtree (key : String) (sub : SerActs) (s : SState)
    (hcur : s.cursor < s.elems.length) :
    (runAct (SerAct.child key sub) s).1.cursor = s.cursor ∧
    shapeAt (runAct (SerAct.child key sub) s).1.elems s.elems.length =
      some (key, some s.cursor, NodeKind.element, none) ∧
    childIds (runAct (SerAct.child key sub) s).1.elems s.cursor =
      childIds s.elems s.cursor ++ [s.elems.length] ∧
    (∀ i, s.elems.length < i → i < (runAct (SerAct.child key sub) s).1.elems.length →
      ∃ p, parentAt (runAct (SerAct.child key sub) s).1.elems i = some (some p) ∧
        s.elems.length ≤ p) := by
  obtain ⟨hc, hd, hl, hs, hn, hr⟩ := runActs_good sub { s with
    elems := s.elems ++ [⟨key, some s.cursor, .element, [], none⟩],
    cursor := s.elems.length }
  dsimp only at hc hd hl hs hn hr
  simp only [List.length_append, List.length_cons, List.length_nil] at hl hs hn
  have hshn : shapeAt (runActs sub { s with
      elems := s.elems ++ [⟨key, some s.cursor, .element, [], none⟩],
      cursor := s.elems.length }).1.elems s.elems.length =
      some (key, some s.cursor, NodeKind.element, none) :=
    (hs s.elems.length (by omega)).trans (shapeAt_concat_self s.elems _)
  have h3 : childIds (runActs sub { s with
      elems := s.elems ++ [⟨key, some s.cursor, .element, [], none⟩],
      cursor := s.elems.length }).1.elems s.cursor =
      childIds s.elems s.cursor ++ [s.elems.length] := by
    apply childIds_extend
    · omega
    · intro i hi
      rw [parentAt_of_shapeAt _ _ i (hs i (by omega))]
      exact parentAt_of_shapeAt s.elems _ i (shapeAt_append_left s.elems _ i hi)
    · rw [parentAt_of_shapeAt _ _ s.elems.length (hs s.elems.length (by omega))]
      exact parentAt_concat_self s.elems _
    · intro i hi1 hi2
      obtain ⟨p, hp, hpc⟩ := hn i (by omega) hi2
      rw [hp]
      intro hcontra
      have hpe : p = s.cursor := by simpa using hcontra
      rcases hpc with hpc | hpc <;> omega
  have h4 : ∀ i, s.elems.length < i → i < (runActs sub { s with
      elems := s.elems ++ [⟨key, some s.cursor, .element, [], none⟩],
      cursor := s.elems.length }).1.elems.length →
      ∃ p, parentAt (runActs sub { s with
        elems := s.elems ++ [⟨key, some s.cursor, .element, [], none⟩],
        cursor := s.elems.length }).1.elems i = some (some p) ∧ s.elems.length ≤ p := by
    intro i hi1 hi2
    obtain ⟨p, hp, hpc⟩ := hn i (by omega) hi2
    refine ⟨p, hp, ?_⟩
    rcases hpc with hpc | hpc <;> omega
  exact ⟨rfl, hshn, h3, h4⟩

/-- Witness for C2 at the freshly initialized serializer: serializing one
empty object adds exactly node 2 as second child of the root and restores
the cursor. -/
theorem serialize_scoped_subtree_witness :
    (runAct (SerAct.child "processor" SerActs.nil) initState).1.cursor = initState.cursor ∧
    childIds (runAct (SerAct.child "processor" SerActs.nil) initState).1.elems initState.cursor =
      childIds initState.elems initState.cursor ++ [initState.elems.length] := by
  have h := serialize_scoped_subtree "processor" SerActs.nil initState (by decide)
  exact ⟨h.1, h.2.2.1⟩

/-- C3: the 8-bit overloads delegate to the full-width integer overloads
with the value preserved: a signed 8-bit value is handed to the backend
as a full-width signed integer payload, an unsigned one as a full-width
unsigned integer payload, never as a single character. -/
theorem narrow_integral_widened :
    (∀ (key : String) (v : Int) (asAttribute : Bool), -128 ≤ v → v ≤ 127 →
      serializeSignedChar key v asAttribute = serializeInt key v asAttribute ∧
      serializeChar key v asAttribute = serializeInt key v asAttribute ∧
      primPayload (serializeSignedChar key v asAttribute) = some (PValue.intText v) ∧
      ∀ w, primPayload (serializeSignedChar key v asAttribute) ≠ some (PValue.charByte w)) ∧
    (∀ (key : String) (v : Nat) (asAttribute : Bool), v ≤ 255 →
      serializeUnsignedChar key v asAttribute = serializeUInt key v asAttribute ∧
      primPayload (serializeUnsignedChar key v asAttribute) = some (PValue.uintText v) ∧
      ∀ w, primPayload (serializeUnsignedChar key v asAttribute) ≠ some (PValue.charByte w)) := by
  constructor
  · intro key v b h1 h2
    refine ⟨rfl, rfl, rfl, fun w => ?_⟩
    simp [serializeSignedChar, serializeInt, primPayload]
  · intro key v b h
    refine ⟨rfl, rfl, fun w => ?_⟩
    simp [serializeUnsignedChar, serializeUInt, primPayload]

/-- Witness for C3: the byte value 65 is encoded as the integer 65, not
as the character with code 65. -/
theorem narrow_integral_widened_witness :
    primPayload (serializeSignedChar "value" 65 false) = some (PValue.intText 65) ∧
    primPayload (serializeUnsignedChar "value" 65 false) = some (PValue.uintText 65) := by
  constructor
  · exact (narrow_integral_widened.1 "value" 65 false (by decide) (by decide)).2.2.1
  · exact (narrow_integral_widened.2 "value" 65 false (by decide)).2.1

/-- C4: both `writeFile` overloads perform the same finalize-then-flush
sequence — the reference table stamps the deferred attributes, then and
only then the document is flushed — and given sinks reporting the same
backend outcome they leave identical states and produce identical
results; the flushed content is the rendering of the stamped document. -/
theorem writeFile_overloads_agree (s : SState) (fileSink : FileSink)
    (streamSink : StreamSink) (h : fileSink.fails = streamSink.fails) :
    writeFileToPath s fileSink = writeFileToStream s streamSink ∧
    (writeFileToPath s fileSink).1 = setReferenceAttributes s ∧
    (∀ out, (writeFileToPath s fileSink).2 = Except.ok out →
      out = render (setReferenceAttributes s)) := by
  refine ⟨?_, ?_, ?_⟩
  · unfold writeFileToPath writeFileToStream saveFile saveStream
    rw [← h]
  · unfold writeFileToPath saveFile
    cases fileSink.fails <;> simp
  · intro out hout
    unfold writeFileToPath saveFile at hout
    cases hf : fileSink.fails <;> rw [hf] at hout <;> simp at hout
    exact hout.symm

/-- Witness for C4: at the fresh state with a succeeding file sink and a
succeeding stream sink, both overloads return the identical result. -/
theorem writeFile_overloads_agree_witness :
    writeFileToPath initState ⟨"out.inv", none⟩ = writeFileToStream initState ⟨none⟩ ∧
    (writeFileToPath initState ⟨"out.inv", none⟩).1 = setReferenceAttributes initState := by
  have h := writeFile_overloads_agree initState ⟨"out.inv", none⟩ ⟨none⟩ (by rfl)
  exact ⟨h.1, h.2.1⟩

/-! ### Stamping the deferred reference attributes -/

theorem stampOne_get? (es : List Elem) (pr : Nat × Nat) (j : Nat) :
    (stampOne es pr).get? j =
      if pr.1 = j then
        (es.get? j).map (fun e =>
          { e with attrs := setAttrList e.attrs IdentityAttribute (PValue.uintText pr.2) })
      else es.get? j := by
  unfold stampOne
  rcases hc : es.get? pr.1 with _ | e0 <;> by_cases hj : pr.1 = j
  · subst hj
    have hc' : es[pr.1]? = none := by rw [← List.get?_eq_getElem?]; exact hc
    simp [hc, hc']
  · simp [hj]
  · subst hj
    have hc' : es[pr.1]? = some e0 := by rw [← List.get?_eq_getElem?]; exact hc
    simp [List.get?_eq_getElem?, List.getElem?_set_self', hc']
  · simp [List.get?_eq_getElem?, List.getElem?_set_ne hj, hj]

theorem foldl_stampOne_get? : ∀ (L : List (Nat × Nat)) (es : List Elem) (j : Nat),
    (L.foldl stampOne es).get? j =
      (es.get? j).map (fun e => { e with attrs := stampAttrs L j e.attrs })
  | [], es, j => by
    show es.get? j = (es.get? j).map (fun e => { e with attrs := stampAttrs [] j e.attrs })
    cases hg : es.get? j <;> rfl
  | pr :: L, es, j => by
    rw [List.foldl_cons]
    rw [foldl_stampOne_get? L (stampOne es pr) j]
    rw [stampOne_get? es pr j]
    by_cases hj : pr.1 = j
    · rw [if_pos hj]
      cases hg : es.get? j <;> simp [stampAttrs, List.foldl_cons, hj, hg]
    · rw [if_neg hj]
      cases hg : es.get? j <;> simp [stampAttrs, List.foldl_cons, hj, hg]

theorem stampAttrs_eq_lastStamp : ∀ (L : List (Nat × Nat)) (j : Nat)
    (as : List (String × PValue)),
    stampAttrs L j as = (match lastStamp L j with
      | none => as
      | some r => setAttrList as IdentityAttribute (PValue.uintText r))
  | [], j, as => rfl
  | pr :: L, j, as => by
    have ih := stampAttrs_eq_lastStamp L j
      (if pr.1 = j then setAttrList as IdentityAttribute (PValue.uintText pr.2) else as)
    unfold stampAttrs at ih ⊢
    simp only [List.foldl_cons]
    rw [ih]
    by_cases hj : pr.1 = j
    · cases hl : lastStamp L j
      · simp [lastStamp, hl, hj]
      · simp [lastStamp, hl, hj, setAttrList_absorb]
    · cases hl : lastStamp L j
      · simp [lastStamp, hl, hj]
      · simp [lastStamp, hl, hj]

theorem stampAttrs_idem (L : List (Nat × Nat)) (j : Nat) (as : List (String × PValue)) :
    stampAttrs L j (stampAttrs L j as) = stampAttrs L j as := by
  have h1 := stampAttrs_eq_lastStamp L j as
  cases hl : lastStamp L j with
  | none =>
    simp only [hl] at h1
    rw [h1]
    exact h1
  | some r =>
    have h2 := stampAttrs_eq_lastStamp L j (setAttrList as IdentityAttribute (PValue.uintText r))
    simp only [hl] at h1 h2
    rw [h1, h2]
    exact setAttrList_absorb as IdentityAttribute _ _

theorem setReferenceAttributes_idem (s : SState) :
    setReferenceAttributes (setReferenceAttributes s) = setReferenceAttributes s := by
  unfold setReferenceAttributes
  dsimp only
  congr 1
  apply List.ext_get?
  intro j
  rw [foldl_stampOne_get? s.pendingRefs (List.foldl stampOne s.elems s.pendingRefs) j]
  rw [foldl_stampOne_get? s.pendingRefs s.elems j]
  cases hg : s.elems.get? j with
  | none => rfl
  | some e =>
    simp only [Option.map_some']
    congr 1
    exact congrArg (fun as => { e with attrs := as }) (stampAttrs_idem s.pendingRefs j e.attrs)

theorem rootVersionAttr_stamp (s : SState) :
    rootVersionAttr (setReferenceAttributes s) = rootVersionAttr s := by
  unfold rootVersionAttr setReferenceAttributes
  dsimp only
  rw [foldl_stampOne_get? s.pendingRefs s.elems 0]
  cases hg : s.elems.get? 0 with
  | none => rfl
  | some e =>
    simp only [Option.map_some']
    have h1 := stampAttrs_eq_lastStamp s.pendingRefs 0 e.attrs
    cases hl : lastStamp s.pendingRefs 0 with
    | none =>
      simp only [hl] at h1
      rw [h1]
    | some r =>
      simp only [hl] at h1
      rw [h1]
      exact getAttr_setAttrList_ne e.attrs IdentityAttribute VersionAttribute _ (by decide)

/-- C5 counterexample: at a state holding one deferred reference
attribute, a `writeFile` whose backend reports a write failure raises the
translated SerializationError but does not leave the in-memory document
unchanged: the reference attributes were already stamped before the
failing flush. -/
theorem writeFile_failure_mutates_doc :
    (writeFileToPath ((runActs (SerActs.cons (SerAct.refChild "obj" 7 SerActs.nil) SerActs.nil)
        initState).1) ⟨"out.inv", some ⟨"disk full"⟩⟩).2 =
      Except.error (IvwError.serialization "disk full" serializerContext) ∧
    (writeFileToPath ((runActs (SerActs.cons (SerAct.refChild "obj" 7 SerActs.nil) SerActs.nil)
        initState).1) ⟨"out.inv", some ⟨"disk full"⟩⟩).1 ≠
      (runActs (SerActs.cons (SerAct.refChild "obj" 7 SerActs.nil) SerActs.nil) initState).1 := by
  constructor
  · rfl
  · decide

/-- C5 as amended: on a backend write failure `writeFile` raises exactly a
SerializationError carrying the backend message and the static context
tag — no other error kind — and the document is left exactly in its
finalized (reference-stamped) form; since stamping is idempotent a retry
to a working target succeeds and flushes that same content. -/
theorem writeFile_failure_translated (s : SState) (e : TxError) (sink : FileSink)
    (h : sink.fails = some e) :
    writeFileToPath s sink =
      (setReferenceAttributes s,
        Except.error (IvwError.serialization e.msg serializerContext)) ∧
    (∀ sink2 : FileSink, sink2.fails = none →
      writeFileToPath (setReferenceAttributes s) sink2 =
        (setReferenceAttributes s, Except.ok (render (setReferenceAttributes s)))) := by
  constructor
  · unfold writeFileToPath saveFile
    rw [h]
  · intro sink2 h2
    unfold writeFileToPath saveFile
    rw [h2, setReferenceAttributes_idem]

/-- Witness for C5 as amended: a concrete failing write, then a
successful retry. -/
theorem writeFile_failure_translated_witness :
    writeFileToPath initState ⟨"out.inv", some ⟨"disk full"⟩⟩ =
      (setReferenceAttributes initState,
        Except.error (IvwError.serialization "disk full" serializerContext)) ∧
    writeFileToPath (setReferenceAttributes initState) ⟨"backup.inv", none⟩ =
      (setReferenceAttributes initState,
        Except.ok (render (setReferenceAttributes initState))) := by
  have h := writeFile_failure_translated initState ⟨"disk full"⟩
    ⟨"out.inv", some ⟨"disk full"⟩⟩ (by rfl)
  exact ⟨h.1, h.2 ⟨"backup.inv", none⟩ (by rfl)⟩

/-! ### Version attribute preservation -/

theorem get?_zero_append (es ts : List Elem) (h0 : 0 < es.length) :
    (es ++ ts).get? 0 = es.get? 0 := by
  rw [List.get?_eq_getElem?, List.getElem?_append_left h0, ← List.get?_eq_getElem?]

theorem rootVersionAttr_irrel (s t : SState) (h : s.elems.get? 0 = t.elems.get? 0) :
    rootVersionAttr s = rootVersionAttr t := by
  unfold rootVersionAttr
  rw [h]

mutual

theorem runAct_version_deep : ∀ (a : SerAct) (s : SState), 0 < s.elems.length →
    s.cursor ≠ 0 → rootVersionAttr (runAct a s).1 = rootVersionAttr s
  | SerAct.fail, s, h0, hc => rfl
  | SerAct.child key sub, s, h0, hc => by
    have ih := runActs_version_deep sub { s with
      elems := s.elems ++ [⟨key, some s.cursor, .element, [], none⟩],
      cursor := s.elems.length } (by simp) (by dsimp only; omega)
    have h1 : rootVersionAttr (runAct (SerAct.child key sub) s).1 =
        rootVersionAttr (runActs sub { s with
          elems := s.elems ++ [⟨key, some s.cursor, .element, [], none⟩],
          cursor := s.elems.length }).1 := rfl
    rw [h1, ih]
    apply rootVersionAttr_irrel
    exact get?_zero_append s.elems _ h0
  | SerAct.prim key v true, s, h0, hc => by
    rcases hg : s.elems[s.cursor]? with _ | e
    · have hre : runAct (SerAct.prim key v true) s = (s, true) := by simp [runAct, hg]
      rw [hre]
    · have hre : runAct (SerAct.prim key v true) s = ({ s with elems := s.elems.set s.cursor { e with attrs := setAttrList e.attrs key v } }, true) := by
        simp [runAct, hg]
      rw [hre]
      unfold rootVersionAttr
      dsimp only
      rw [List.get?_eq_getElem?, List.getElem?_set_ne hc, ← List.get?_eq_getElem?]
  | SerAct.prim key v false, s, h0, hc => by
    have hre : runAct (SerAct.prim key v false) s = ({ s with elems := s.elems ++ [⟨key, some s.cursor, NodeKind.element, [], some v⟩] }, true) := by
      simp [runAct]
    rw [hre]
    apply rootVersionAttr_irrel
    exact get?_zero_append s.elems _ h0
  | SerAct.refChild key ident sub, s, h0, hc => by
    by_cases hmem : ident ∈ s.refTable
    · have hre : runAct (SerAct.refChild key ident sub) s = ({ s with elems := s.elems ++ [⟨key, some s.cursor, NodeKind.element, [(ReferenceAttribute, PValue.uintText (s.refTable.indexOf ident))], none⟩] }, true) := by
        simp [runAct, hmem]
      rw [hre]
      apply rootVersionAttr_irrel
      exact get?_zero_append s.elems _ h0
    · have ih := runActs_version_deep sub { s with
        elems := s.elems ++ [⟨key, some s.cursor, .element, [], none⟩],
        refTable := s.refTable ++ [ident],
        pendingRefs := s.pendingRefs ++ [(s.elems.length, s.refTable.length)],
        cursor := s.elems.length } (by simp) (by dsimp only; omega)
      have h1 : rootVersionAttr (runAct (SerAct.refChild key ident sub) s).1 =
          rootVersionAttr (runActs sub { s with
            elems := s.elems ++ [⟨key, some s.cursor, .element, [], none⟩],
            refTable := s.refTable ++ [ident],
            pendingRefs := s.pendingRefs ++ [(s.elems.length, s.refTable.length)],
            cursor := s.elems.length }).1 := by
        simp only [runAct]
        rw [if_neg hmem]
        rfl
      rw [h1, ih]
      apply rootVersionAttr_irrel
      exact get?_zero_append s.elems _ h0

theorem runActs_version_deep : ∀ (l : SerActs) (s : SState), 0 < s.elems.length →
    s.cursor ≠ 0 → rootVersionAttr (runActs l s).1 = rootVersionAttr s
  | SerActs.nil, s, h0, hc => rfl
  | SerActs.cons a rest, s, h0, hc => by
    have h1 := runAct_version_deep a s h0 hc
    have hgood := runAct_good a s
    have hlen : 0 < (runAct a s).1.elems.length := Nat.lt_of_lt_of_le h0 hgood.2.2.1
    have hcur : (runAct a s).1.cursor ≠ 0 := by rw [hgood.1]; exact hc
    have h2 := runActs_version_deep rest (runAct a s).1 hlen hcur
    cases hb : (runAct a s).2 with
    | false =>
      have hre : runActs (SerActs.cons a rest) s = runAct a s := by simp [runActs, hb]
      rw [hre, h1]
    | true =>
      have hre : runActs (SerActs.cons a rest) s = runActs rest (runAct a s).1 := by
        simp [runActs, hb]
      rw [hre, h2, h1]

end

theorem runAct_version_top (a : SerAct) (s : SState) (h0 : 0 < s.elems.length)
    (hA : avoidsVersionAttrAtRoot a = true) :
    rootVersionAttr (runAct a s).1 = rootVersionAttr s := by
  cases a with
  | fail => rfl
  | child key sub =>
    have ih := runActs_version_deep sub { s with
      elems := s.elems ++ [⟨key, some s.cursor, .element, [], none⟩],
      cursor := s.elems.length } (by simp) (by dsimp only; omega)
    have h1 : rootVersionAttr (runAct (SerAct.child key sub) s).1 =
        rootVersionAttr (runActs sub { s with
          elems := s.elems ++ [⟨key, some s.cursor, .element, [], none⟩],
          cursor := s.elems.length }).1 := rfl
    rw [h1, ih]
    apply rootVersionAttr_irrel
    exact get?_zero_append s.elems _ h0
  | prim key v asAttr =>
    cases asAttr with
    | true =>
      have hk : key ≠ VersionAttribute := by
        intro hcontra
        subst hcontra
        simp [avoidsVersionAttrAtRoot] at hA
      rcases hg : s.elems[s.cursor]? with _ | e
      · have hre : runAct (SerAct.prim key v true) s = (s, true) := by simp [runAct, hg]
        rw [hre]
      · have hre : runAct (SerAct.prim key v true) s = ({ s with elems := s.elems.set s.cursor { e with attrs := setAttrList e.attrs key v } }, true) := by
          simp [runAct, hg]
        rw [hre]
        by_cases hc0 : s.cursor = 0
        · rw [hc0] at hg
          rw [hc0]
          unfold rootVersionAttr
          dsimp only
          simp only [List.get?_eq_getElem?, List.getElem?_set_self', hg]
          simp only [Option.map_eq_map, Option.map_some']
          exact getAttr_setAttrList_ne e.attrs key VersionAttribute v hk
        · unfold rootVersionAttr
          dsimp only
          rw [List.get?_eq_getElem?, List.getElem?_set_ne hc0, ← List.get?_eq_getElem?]
    | false =>
      have hre : runAct (SerAct.prim key v false) s = ({ s with elems := s.elems ++ [⟨key, some s.cursor, NodeKind.element, [], some v⟩] }, true) := by
        simp [runAct]
      rw [hre]
      apply rootVersionAttr_irrel
      exact get?_zero_append s.elems _ h0
  | refChild key ident sub =>
    by_cases hmem : ident ∈ s.refTable
    · have hre : runAct (SerAct.refChild key ident sub) s = ({ s with elems := s.elems ++ [⟨key, some s.cursor, NodeKind.element, [(ReferenceAttribute, PValue.uintText (s.refTable.indexOf ident))], none⟩] }, true) := by
        simp [runAct, hmem]
      rw [hre]
      apply rootVersionAttr_irrel
      exact get?_zero_append s.elems _ h0
    · have ih := runActs_version_deep sub { s with
        elems := s.elems ++ [⟨key, some s.cursor, .element, [], none⟩],
        refTable := s.refTable ++ [ident],
        pendingRefs := s.pendingRefs ++ [(s.elems.length, s.refTable.length)],
        cursor := s.elems.length } (by simp) (by dsimp only; omega)
      have h1 : rootVersionAttr (runAct (SerAct.refChild key ident sub) s).1 =
          rootVersionAttr (runActs sub { s with
            elems := s.elems ++ [⟨key, some s.cursor, .element, [], none⟩],
            refTable := s.refTable ++ [ident],
            pendingRefs := s.pendingRefs ++ [(s.elems.length, s.refTable.length)],
            cursor := s.elems.length }).1 := by
        simp only [runAct]
        rw [if_neg hmem]
        rfl
      rw [h1, ih]
      apply rootVersionAttr_irrel
      exact get?_zero_append s.elems _ h0

theorem runActs_version_top : ∀ (l : SerActs) (s : SState), 0 < s.elems.length →
    allAvoidVersionAttrAtRoot l = true → rootVersionAttr (runActs l s).1 = rootVersionAttr s
  | SerActs.nil, s, h0, hA => rfl
  | SerActs.cons a rest, s, h0, hA => by
    have hA12 : avoidsVersionAttrAtRoot a = true ∧ allAvoidVersionAttrAtRoot rest = true := by
      simpa [allAvoidVersionAttrAtRoot, Bool.and_eq_true] using hA
    have h1 := runAct_version_top a s h0 hA12.1
    have hlen : 0 < (runAct a s).1.elems.length :=
      Nat.lt_of_lt_of_le h0 (runAct_good a s).2.2.1
    have h2 := runActs_version_top rest (runAct a s).1 hlen hA12.2
    cases hb : (runAct a s).2 with
    | false =>
      have hre : runActs (SerActs.cons a rest) s = runAct a s := by simp [runActs, hb]
      rw [hre, h1]
    | true =>
      have hre : runActs (SerActs.cons a rest) s = runActs rest (runAct a s).1 := by
        simp [runActs, hb]
      rw [hre, h2, h1]

theorem rootCountL_goodTrans (s t : SState) (h : goodTrans s t) :
    rootCountL t.elems = rootCountL s.elems := by
  obtain ⟨hc, hd, hl, hs, hn, hr⟩ := h
  unfold rootCountL
  rw [show t.elems.length = s.elems.length + (t.elems.length - s.elems.length) from by omega,
    List.range_add, List.countP_append]
  have h2 : ((List.range (t.elems.length - s.elems.length)).map (s.elems.length + ·)).countP
      (fun i => decide (parentAt t.elems i = some none)) = 0 := by
    apply List.countP_eq_zero.2
    intro a ha
    rcases List.mem_map.1 ha with ⟨j, hj, rfl⟩
    have hjr := List.mem_range.1 hj
    obtain ⟨p, hp, hpc⟩ := hn (s.elems.length + j) (by omega) (by omega)
    simp [hp]
  have h1 : (List.range s.elems.length).countP
      (fun i => decide (parentAt t.elems i = some none)) =
      (List.range s.elems.length).countP
      (fun i => decide (parentAt s.elems i = some none)) := by
    apply List.countP_congr
    intro i hi
    rw [parentAt_of_shapeAt s.elems t.elems i (hs i (List.mem_range.1 hi))]
  rw [h1, h2]
  omega

theorem childIds_prefix_goodTrans (s t : SState) (h : goodTrans s t) (c : Nat) :
    ∃ rest, childIds t.elems c = childIds s.elems c ++ rest := by
  obtain ⟨hc, hd, hl, hs, hn, hr⟩ := h
  unfold childIds
  rw [show t.elems.length = s.elems.length + (t.elems.length - s.elems.length) from by omega,
    List.range_add, List.filter_append]
  refine ⟨((List.range (t.elems.length - s.elems.length)).map (s.elems.length + ·)).filter
    (fun i => decide (parentAt t.elems i = some (some c))), ?_⟩
  congr 1
  apply List.filter_congr
  intro i hi
  rw [parentAt_of_shapeAt s.elems t.elems i (hs i (List.mem_range.1 hi))]

/-- C6 counterexample: the claim that the version attribute of the root is
never mutated by any later operation of the pass fails: the 8-bit scalar
overload, asked to write an attribute whose key equals the version
attribute name while the cursor is at the root, overwrites it. -/
theorem version_attribute_mutable :
    rootVersionAttr initState = some (PValue.str InviwoVersion) ∧
    rootVersionAttr (runActs (SerActs.cons (serializeSignedChar VersionAttribute 5 true)
        SerActs.nil) initState).1 = some (PValue.intText 5) ∧
    some (PValue.intText 5) ≠ some (PValue.str InviwoVersion) := by
  refine ⟨by decide, by decide, by decide⟩

/-- C6 as amended: at construction the document carries exactly one root
element with the conventional name, the version attribute set at that
moment, and the edit-warning comment as first child; the version
attribute, root uniqueness and the leading comment are preserved by the
reference-attribute stamping and by every serialize operation except a
scalar attribute write whose key equals the version attribute name while
the cursor is at the root.  Top-level calls of a pass run at the root, so
only those scalar writes are excluded; nested calls — including nested
scalar attribute writes carrying the version key, which target the then
current node, never the root — are all covered. -/
theorem initialize_root_invariants :
    rootVersionAttr initState = some (PValue.str InviwoVersion) ∧
    rootCountL initState.elems = 1 ∧
    shapeAt initState.elems 0 = some (InviwoTreedata, none, NodeKind.element, none) ∧
    childIds initState.elems 0 = [1] ∧
    shapeAt initState.elems 1 = some ("", some 0, NodeKind.comment, some (PValue.str EditComment)) ∧
    (∀ s : SState, rootVersionAttr (setReferenceAttributes s) = rootVersionAttr s) ∧
    (∀ acts : SerActs, allAvoidVersionAttrAtRoot acts = true →
      rootVersionAttr (runActs acts initState).1 = some (PValue.str InviwoVersion) ∧
      rootCountL (runActs acts initState).1.elems = 1 ∧
      (childIds (runActs acts initState).1.elems 0).head? = some 1 ∧
      shapeAt (runActs acts initState).1.elems 1 =
        some ("", some 0, NodeKind.comment, some (PValue.str EditComment))) := by
  refine ⟨by decide, by decide, by decide, by decide, by decide, rootVersionAttr_stamp, ?_⟩
  intro acts hA
  have hg := runActs_good acts initState
  refine ⟨?_, ?_, ?_, ?_⟩
  · rw [runActs_version_top acts initState (by decide) hA]
    decide
  · rw [rootCountL_goodTrans initState _ hg]
    decide
  · obtain ⟨rest, heq⟩ := childIds_prefix_goodTrans initState _ hg 0
    rw [heq, show childIds initState.elems 0 = [1] from by decide]
    rfl
  · rw [hg.2.2.2.1 1 (by decide)]
    decide

/-- Witness for C6 as amended: a serialize call whose nested object writes
an attribute named like the version attribute — at its own node, not at
the root — still preserves the version attribute of the root, the unique
root and the leading comment. -/
theorem initialize_root_invariants_witness :
    rootVersionAttr (runActs (SerActs.cons (SerAct.child "data"
        (SerActs.cons (SerAct.prim VersionAttribute (PValue.str "9") true) SerActs.nil))
        SerActs.nil) initState).1 = some (PValue.str InviwoVersion) ∧
    rootCountL (runActs (SerActs.cons (SerAct.child "data"
        (SerActs.cons (SerAct.prim VersionAttribute (PValue.str "9") true) SerActs.nil))
        SerActs.nil) initState).1.elems = 1 := by
  have h := initialize_root_invariants.2.2.2.2.2.2
    (SerActs.cons (SerAct.child "data"
      (SerActs.cons (SerAct.prim VersionAttribute (PValue.str "9") true) SerActs.nil))
      SerActs.nil) (by decide)
  exact ⟨h.1, h.2.1⟩

/-- C7: every backend failure inside `initialize` and both `writeFile`
overloads is re-raised as the single SerializationError kind carrying the
backend message and the static context tag; no backend-native exception
escapes and no failure is swallowed: the operation fails exactly when the
backend reports a failure. -/
theorem backend_errors_translated :
    (∀ backendFailure : Option TxError,
      (backendFailure = none → initializeSerializer backendFailure = Except.ok initState) ∧
      (∀ e, backendFailure = some e →
        initializeSerializer backendFailure =
          Except.error (IvwError.serialization e.msg serializerContext))) ∧
    (∀ (s : SState) (sink : FileSink),
      (sink.fails = none →
        (writeFileToPath s sink).2 = Except.ok (render (setReferenceAttributes s))) ∧
      (∀ e, sink.fails = some e →
        (writeFileToPath s sink).2 =
          Except.error (IvwError.serialization e.msg serializerContext))) ∧
    (∀ (s : SState) (sink : StreamSink),
      (sink.fails = none →
        (writeFileToStream s sink).2 = Except.ok (render (setReferenceAttributes s))) ∧
      (∀ e, sink.fails = some e →
        (writeFileToStream s sink).2 =
          Except.error (IvwError.serialization e.msg serializerContext))) := by
  refine ⟨?_, ?_, ?_⟩
  · intro fl
    constructor
    · intro h
      rw [h]
      rfl
    · intro e h
      rw [h]
      rfl
  · intro s sink
    constructor
    · intro h
      unfold writeFileToPath saveFile
      rw [h]
    · intro e h
      unfold writeFileToPath saveFile
      rw [h]
  · intro s sink
    constructor
    · intro h
      unfold writeFileToStream saveStream
      rw [h]
    · intro e h
      unfold writeFileToStream saveStream
      rw [h]

/-- Witness for C7: a concrete backend failure in `initialize` and in
both `writeFile` overloads surfaces as the translated error. -/
theorem backend_errors_translated_witness :
    initializeSerializer (some ⟨"malformed"⟩) =
      Except.error (IvwError.serialization "malformed" serializerContext) ∧
    (writeFileToPath initState ⟨"out.inv", some ⟨"io"⟩⟩).2 =
      Except.error (IvwError.serialization "io" serializerContext) ∧
    (writeFileToStream initState ⟨some ⟨"io"⟩⟩).2 =
      Except.error (IvwError.serialization "io" serializerContext) := by
  refine ⟨?_, ?_, ?_⟩
  · exact (backend_errors_translated.1 (some ⟨"malformed"⟩)).2 ⟨"malformed"⟩ rfl
  · exact (backend_errors_translated.2.1 initState ⟨"out.inv", some ⟨"io"⟩⟩).2 ⟨"io"⟩ rfl
  · exact (backend_errors_translated.2.2 initState ⟨some ⟨"io"⟩⟩).2 ⟨"io"⟩ rfl

end Inviwo
